import Mathlib

/-!
Shallow embedding of the Picsur identity / role / permission subsystem.

Source files embedded:
- src/backend/src/collections/user-db/user-db.service.ts  (UsersService)
- src/backend/src/managers/auth/guards/main.guard.ts      (MainAuthGuard)

External collaborators that are not under src/ (bcrypt, the TypeORM
repository, the preference service, the role registry, the configured
role and protection lists, the makeUnique helper from picsur-shared and
the isPermissionsArray validator) are modelled as explicit parameters or
from the words of the specification, as noted on each definition.
-/

/-- Embedding of the EUserBackend entity: id (assigned by storage, hence
optional), unique username, optional password hash, list of role names. -/
structure EUserBackend where
  id : Option String
  username : String
  hashedPassword : Option String
  roles : List String
deriving DecidableEq, Repr

/-- Embedding of the Failable type of picsur-shared: a value or a failure
carrying a reason string. -/
inductive Failable (α : Type) where
  | ok (val : α)
  | fail (reason : String)
deriving DecidableEq, Repr

/-- HasFailed from picsur-shared: true exactly on a failure. -/
def HasFailed {α : Type} : Failable α → Bool
  | .ok _ => false
  | .fail _ => true

/-- HasSuccess from picsur-shared: true exactly on a success. -/
def HasSuccess {α : Type} (f : Failable α) : Bool :=
  !(HasFailed f)

/-- Modelled from the spec: the configured role lists (roles.const.ts) and
protection-class username lists (special-users.const.ts) are imported by
user-db.service.ts but their source is not under src/. The spec describes
them as statically configured sets of names, so they are carried as plain
list-valued configuration. -/
structure UsersConfig where
  DefaultRolesList : List String
  SoulBoundRolesList : List String
  ImmutableUsersList : List String
  LockedLoginUsersList : List String
  UndeletableUsersList : List String
deriving DecidableEq, Repr

/-- Modelled from the spec: makeUnique from picsur-shared/dist/util/unique
is not under src/; the spec only requires deduplication with order
irrelevant, so it is modelled as list deduplication. -/
def makeUnique (l : List String) : List String :=
  l.dedup

/-- State of the TypeORM users repository: the stored rows, plus two flags
modelling a storage layer whose read side (findOne) or write side
(save / remove) throws; a thrown error is caught by the service and turned
into a failure. -/
structure Store where
  users : List EUserBackend
  findBroken : Bool
  saveBroken : Bool
deriving DecidableEq, Repr

/-- The empty repository with a healthy storage layer. -/
def emptyStore : Store :=
  { users := [], findBroken := false, saveBroken := false }

/-- Reason string standing for a caught storage-layer exception (the code
returns Fail(e) with the underlying cause). -/
def storageErr : String := "storage error"

/-- Hide the columns that are not normally sent to the client: the select
clause of findOne omits the password hash unless getPrivate is set. -/
def stripPrivate (u : EUserBackend) : EUserBackend :=
  { u with hashedPassword := none }

/-- UsersService.findByUsername (user-db.service.ts lines 181-198): looks
the username up in the repository; a missing row fails with the message
User not found, a storage throw fails with the caught error; getPrivate
controls whether the password hash column is selected. -/
def findByUsername (s : Store) (username : String) (getPrivate : Bool) :
    Failable EUserBackend :=
  if s.findBroken then .fail storageErr
  else
    match s.users.find? (fun u => u.username == username) with
    | none => .fail "User not found"
    | some u => .ok (if getPrivate then u else stripPrivate u)

/-- UsersService.findOne (user-db.service.ts lines 200-211): looks the id
up in the repository; private columns are not selected. -/
def findOne (s : Store) (uuid : String) : Failable EUserBackend :=
  if s.findBroken then .fail storageErr
  else
    match s.users.find? (fun u => u.id == some uuid) with
    | none => .fail "User not found"
    | some u => .ok (stripPrivate u)

/-- UsersService.exists (user-db.service.ts lines 230-232): success of the
username lookup, as a boolean. -/
def usersExists (s : Store) (username : String) : Bool :=
  HasSuccess (findByUsername s username false)

/-- UsersService.filterAddedRoles (user-db.service.ts lines 236-242):
drop every requested role that is in the soulbound list. -/
def filterAddedRoles (cfg : UsersConfig) (roles : List String) : List String :=
  roles.filter (fun role => !(cfg.SoulBoundRolesList.contains role))

/-- UsersService.create (user-db.service.ts lines 41-70). The bcrypt hash
(with the preference-derived strength) is abstracted as the function
parameter hash, and the id the repository assigns on save as newId; both
live outside src/. If the username already exists the call fails with the
AlreadyExists message before anything is written; otherwise the role list
is computed (verbatim under byPassRoleCheck, else default roles unioned
with the soulbound-stripped request), deduplicated, and the row is saved. -/
def create (cfg : UsersConfig) (hash : String → String) (s : Store)
    (newId username password : String) (roles : List String)
    (byPassRoleCheck : Bool) : Failable EUserBackend × Store :=
  if usersExists s username then (.fail "User already exists", s)
  else
    let hashedPassword := hash password
    let userRoles :=
      if byPassRoleCheck then makeUnique roles
      else makeUnique (cfg.DefaultRolesList ++ filterAddedRoles cfg roles)
    let user : EUserBackend :=
      { id := some newId, username := username,
        hashedPassword := some hashedPassword, roles := userRoles }
    if s.saveBroken then (.fail storageErr, s)
    else (.ok user, { s with users := s.users ++ [user] })

/-- UsersService.delete (user-db.service.ts lines 72-85): resolve the id;
a username on the undeletable list fails with the Protected message and
nothing is removed; otherwise the row is removed and returned. -/
def deleteUser (cfg : UsersConfig) (s : Store) (uuid : String) :
    Failable EUserBackend × Store :=
  match findOne s uuid with
  | .fail r => (.fail r, s)
  | .ok userToModify =>
    if cfg.UndeletableUsersList.contains userToModify.username then
      (.fail "Cannot delete system user", s)
    else if s.saveBroken then (.fail storageErr, s)
    else (.ok userToModify,
          { s with users := s.users.filter (fun u => u.id != some uuid) })

/-- UsersService.setRoles (user-db.service.ts lines 89-114): resolve the
id; an immutable username silently returns the unmodified record with no
write; otherwise the new role list is the deduplicated union of the
currently-held soulbound roles and the soulbound-stripped request, and the
row is saved with that role list. -/
def setRoles (cfg : UsersConfig) (s : Store) (uuid : String)
    (roles : List String) : Failable EUserBackend × Store :=
  match findOne s uuid with
  | .fail r => (.fail r, s)
  | .ok userToModify =>
    if cfg.ImmutableUsersList.contains userToModify.username then
      (.ok userToModify, s)
    else
      let rolesToKeep := userToModify.roles.filter
        (fun role => cfg.SoulBoundRolesList.contains role)
      let rolesToAdd := filterAddedRoles cfg roles
      let newRoles := makeUnique (rolesToKeep ++ rolesToAdd)
      let saveRow := fun (u : EUserBackend) =>
        if u.id == some uuid then { u with roles := newRoles } else u
      if s.saveBroken then (.fail storageErr, s)
      else (.ok { userToModify with roles := newRoles },
            { s with users := s.users.map saveRow })

/-- UsersService.authenticate (user-db.service.ts lines 161-177): fetch the
account with private columns; a username on the locked-login list fails
with the message Wrong username before the hash comparison; a failed
bcrypt comparison (abstracted as the parameter compare, bcrypt is not
under src/) fails with the message Wrong password; success re-fetches the
account through the normal, non-private path. -/
def authenticate (cfg : UsersConfig) (s : Store)
    (compare : String → String → Bool) (username password : String) :
    Failable EUserBackend :=
  match findByUsername s username true with
  | .fail r => .fail r
  | .ok user =>
    if cfg.LockedLoginUsersList.contains user.username then
      .fail "Wrong username"
    else if !(compare password (user.hashedPassword.getD "")) then
      .fail "Wrong password"
    else findOne s (user.id.getD "")

/-- The Create / SetRoles operations a caller can issue against the store,
used to state lifecycle invariants over arbitrary operation sequences. -/
inductive UserOp where
  | createOp (newId username password : String) (roles : List String)
      (byPassRoleCheck : Bool)
  | setRolesOp (uuid : String) (roles : List String)
deriving DecidableEq, Repr

/-- An operation is non-bypass when it is not a system-level creation with
the role check bypassed. -/
def nonBypass : UserOp → Bool
  | .createOp _ _ _ _ byPassRoleCheck => !byPassRoleCheck
  | .setRolesOp _ _ => true

/-- Effect of one operation on the store. -/
def runOp (cfg : UsersConfig) (hash : String → String) (s : Store) :
    UserOp → Store
  | .createOp newId username password roles byPass =>
      (create cfg hash s newId username password roles byPass).2
  | .setRolesOp uuid roles => (setRoles cfg s uuid roles).2

/-- Effect of a sequence of operations on the store. -/
def runOps (cfg : UsersConfig) (hash : String → String) (s : Store)
    (ops : List UserOp) : Store :=
  ops.foldl (runOp cfg hash) s

/-- Embedding of the shared EUser entity the guard receives from the
authenticators: an optional id, a username and a role list. -/
structure EUser where
  id : Option String
  username : String
  roles : List String
deriving DecidableEq, Repr

/-- Outcome of the guard on one request: return true (allowed), throw
ForbiddenException (forbidden, with its message), or throw
InternalServerErrorException (internalError). -/
inductive GuardOutcome where
  | allowed
  | forbidden (msg : String)
  | internalError
deriving DecidableEq, Repr

/-- MainAuthGuard.extractPermissions (main.guard.ts lines 66-83): the
method-level declaration, falling back to the class-level one; absence of
both is a failure, as is a declaration rejected by the validator
isPermissionsArray (a validator that is not under src/, abstracted as the
parameter isPermArray). -/
def extractPermissions (handlerName : String)
    (methodPerms classPerms : Option (List String))
    (isPermArray : List String → Bool) : Failable (List String) :=
  let permissions :=
    match methodPerms with
    | some ps => some ps
    | none => classPerms
  match permissions with
  | none =>
      .fail (handlerName ++ " does not have any permissions defined, denying access")
  | some ps =>
      if isPermArray ps then .ok ps
      else .fail ("Permissions for " ++ handlerName ++ " is not a string array")

/-- MainAuthGuard.canActivate (main.guard.ts lines 31-64). superResult is
the outcome of the inherited authenticators; requestUser is the identity
as validated by the zod schema (none when validation fails, which the code
turns into an internal error); getPermissions abstracts
usersService.getPermissions (its role-registry half is not under src/).
A false super result, an invalid identity, a missing or empty id, a failed
permission-declaration lookup and a failed held-permission lookup are all
internal errors; otherwise the request is allowed exactly when every
required permission is held, and refused with a ForbiddenException
carrying the message Permission denied otherwise. -/
def canActivate (superResult : Bool) (requestUser : Option EUser)
    (handlerName : String) (methodPerms classPerms : Option (List String))
    (isPermArray : List String → Bool)
    (getPermissions : String → Failable (List String)) : GuardOutcome :=
  if !superResult then .internalError
  else
    match requestUser with
    | none => .internalError
    | some user =>
      match user.id with
      | none => .internalError
      | some uid =>
        if uid == "" then .internalError
        else
          match extractPermissions handlerName methodPerms classPerms isPermArray with
          | .fail _ => .internalError
          | .ok permissions =>
            match getPermissions uid with
            | .fail _ => .internalError
            | .ok userPermissions =>
              if permissions.all (fun p => userPermissions.contains p) then
                .allowed
              else .forbidden "Permission denied"

/-! Helper lemmas about the embedding. -/

/-- Membership is unchanged by deduplication. -/
theorem mem_makeUnique {a : String} {l : List String} :
    a ∈ makeUnique l ↔ a ∈ l :=
  List.mem_dedup

/-- Deduplication yields a list without duplicates. -/
theorem nodup_makeUnique (l : List String) : (makeUnique l).Nodup :=
  List.nodup_dedup l

/-- A successful username lookup returns a record carrying the requested
username. -/
theorem findByUsername_ok_username {s : Store} {n : String} {p : Bool}
    {u : EUserBackend} (h : findByUsername s n p = .ok u) :
    u.username = n := by
  unfold findByUsername at h
  by_cases hb : s.findBroken
  · simp [hb] at h
  · simp only [hb, if_false] at h
    cases hf : s.users.find? (fun v => v.username == n) with
    | none => rw [hf] at h; exact absurd h (by simp)
    | some v =>
      rw [hf] at h
      have hv := List.find?_some hf
      have hv' : v.username = n := by simpa using hv
      cases p with
      | true => simp at h; rw [← h]; exact hv'
      | false => simp [stripPrivate] at h; rw [← h]; exact hv'

/-- A successful id lookup means the read side is healthy and some stored
row matches, whose public projection is the returned record. -/
theorem findOne_ok_mem {s : Store} {uuid : String} {u : EUserBackend}
    (h : findOne s uuid = .ok u) :
    s.findBroken = false ∧ ∃ u0 ∈ s.users, stripPrivate u0 = u := by
  unfold findOne at h
  by_cases hb : s.findBroken
  · simp [hb] at h
  · refine ⟨by simpa using hb, ?_⟩
    simp only [hb, if_false] at h
    cases hf : s.users.find? (fun v => v.id == some uuid) with
    | none => rw [hf] at h; exact absurd h (by simp)
    | some v =>
      rw [hf] at h
      refine ⟨v, List.mem_of_find?_eq_some hf, ?_⟩
      simpa using h

/-! Claim theorems. -/

/-- C9: for every username for which an account already exists, create
fails with the AlreadyExists message and performs no write: the store
returned by the failed call is exactly the store passed in. -/
theorem create_existing_username_no_write
    (cfg : UsersConfig) (hash : String → String) (s : Store)
    (newId username password : String) (roles : List String) (byPass : Bool)
    (hex : usersExists s username = true) :
    create cfg hash s newId username password roles byPass =
      (.fail "User already exists", s) := by
  unfold create
  simp [hex]

/-- Configuration with no protected names, used for concrete instances. -/
def cfgPlain : UsersConfig :=
  { DefaultRolesList := [], SoulBoundRolesList := [], ImmutableUsersList := [],
    LockedLoginUsersList := [], UndeletableUsersList := [] }

/-- A stored row named bob, used for concrete instances. -/
def bobRow : EUserBackend :=
  { id := some "1", username := "bob", hashedPassword := some "h", roles := [] }

/-- Store holding only bob, with a healthy storage layer. -/
def storeBob : Store :=
  { users := [bobRow], findBroken := false, saveBroken := false }

/-- Witness for C9 at a concrete input: bob already exists, so creating
bob again fails with the AlreadyExists message and leaves the store as it
was. -/
theorem create_existing_username_no_write_witness :
    usersExists storeBob "bob" = true ∧
    create cfgPlain (fun p => p) storeBob "2" "bob" "pw" [] false =
      (.fail "User already exists", storeBob) :=
  ⟨by decide,
   create_existing_username_no_write cfgPlain (fun p => p) storeBob "2" "bob"
     "pw" [] false (by decide)⟩

/-- C6: for every account whose username is on the immutable list,
setRoles returns the unmodified current record as a success and leaves the
store untouched, for any requested role list. -/
theorem setRoles_immutable_silent_noop
    (cfg : UsersConfig) (s : Store) (uuid : String) (roles : List String)
    (user : EUserBackend)
    (hfind : findOne s uuid = .ok user)
    (himm : cfg.ImmutableUsersList.contains user.username = true) :
    setRoles cfg s uuid roles = (.ok user, s) := by
  have himm' : user.username ∈ cfg.ImmutableUsersList := by
    simpa [List.elem_iff] using himm
  unfold setRoles
  rw [hfind]
  simp [himm']

/-- Configuration whose immutable list holds the name admin. -/
def cfgImm : UsersConfig :=
  { DefaultRolesList := [], SoulBoundRolesList := [], ImmutableUsersList := ["admin"],
    LockedLoginUsersList := [], UndeletableUsersList := [] }

/-- A stored admin row holding one ordinary role. -/
def adminRow : EUserBackend :=
  { id := some "1", username := "admin", hashedPassword := none, roles := ["x"] }

/-- Store holding only the admin row, with a healthy storage layer. -/
def storeImm : Store :=
  { users := [adminRow], findBroken := false, saveBroken := false }

/-- Witness for C6 at a concrete input: a role update on the immutable
admin account succeeds, returns the unchanged record and leaves the store
unchanged. -/
theorem setRoles_immutable_silent_noop_witness :
    setRoles cfgImm storeImm "1" ["a", "b"] = (.ok adminRow, storeImm) :=
  setRoles_immutable_silent_noop cfgImm storeImm "1" ["a", "b"] adminRow
    (by decide) (by decide)

/-- C7: for every account whose username is on the undeletable list,
deleteUser fails with the Protected message, the store is unchanged, and
the account is still retrievable by id and by username afterwards. -/
theorem delete_undeletable_protected
    (cfg : UsersConfig) (s : Store) (uuid : String) (user : EUserBackend)
    (hfind : findOne s uuid = .ok user)
    (hprot : cfg.UndeletableUsersList.contains user.username = true) :
    deleteUser cfg s uuid = (.fail "Cannot delete system user", s) ∧
    findOne s uuid = .ok user ∧
    usersExists s user.username = true := by
  have hprot' : user.username ∈ cfg.UndeletableUsersList := by
    simpa [List.elem_iff] using hprot
  refine ⟨?_, hfind, ?_⟩
  · unfold deleteUser
    rw [hfind]
    simp [hprot']
  · obtain ⟨hb, u0, hmem, hstrip⟩ := findOne_ok_mem hfind
    have huser : u0.username = user.username := by rw [← hstrip]; rfl
    unfold usersExists HasSuccess findByUsername
    simp only [hb, Bool.false_eq_true, if_false]
    cases hfq : s.users.find? (fun u => u.username == user.username) with
    | none =>
      have hnone := List.find?_eq_none.mp hfq u0 hmem
      simp [huser] at hnone
    | some v => simp [HasFailed]

/-- Configuration whose undeletable list holds the name root. -/
def cfgUndel : UsersConfig :=
  { DefaultRolesList := [], SoulBoundRolesList := [], ImmutableUsersList := [],
    LockedLoginUsersList := [], UndeletableUsersList := ["root"] }

/-- A stored root row. -/
def rootRow : EUserBackend :=
  { id := some "7", username := "root", hashedPassword := none, roles := [] }

/-- Store holding only the root row, with a healthy storage layer. -/
def storeUndel : Store :=
  { users := [rootRow], findBroken := false, saveBroken := false }

/-- Witness for C7 at a concrete input: deleting the undeletable root
account fails with the Protected message, and root is still retrievable. -/
theorem delete_undeletable_protected_witness :
    deleteUser cfgUndel storeUndel "7" = (.fail "Cannot delete system user", storeUndel) ∧
    findOne storeUndel "7" = .ok rootRow ∧
    usersExists storeUndel "root" = true :=
  delete_undeletable_protected cfgUndel storeUndel "7" rootRow (by decide) (by decide)

/-- C4: when the identity and the declared required permissions resolve
successfully, the guard allows the request exactly when every required
permission is held; an empty required set is always allowed, and a missing
permission produces the user-facing ForbiddenException with the message
Permission denied, not an internal error. -/
theorem gate_allows_iff_all_required_held
    (user : EUser) (uid handlerName : String)
    (methodPerms classPerms : Option (List String))
    (isPermArray : List String → Bool)
    (getPerms : String → Failable (List String))
    (required held : List String)
    (hid : user.id = some uid) (hne : (uid == "") = false)
    (hext : extractPermissions handlerName methodPerms classPerms isPermArray
      = .ok required)
    (hgp : getPerms uid = .ok held) :
    (canActivate true (some user) handlerName methodPerms classPerms
        isPermArray getPerms = .allowed ↔ ∀ p ∈ required, p ∈ held) ∧
    (required = [] →
      canActivate true (some user) handlerName methodPerms classPerms
        isPermArray getPerms = .allowed) ∧
    (∀ p, p ∈ required → p ∉ held →
      canActivate true (some user) handlerName methodPerms classPerms
        isPermArray getPerms = .forbidden "Permission denied") := by
  have hred : canActivate true (some user) handlerName methodPerms classPerms
      isPermArray getPerms =
      (if required.all (fun p => held.contains p) then .allowed
       else .forbidden "Permission denied") := by
    unfold canActivate
    simp only [hid, hne, hext, hgp, Bool.not_true, Bool.false_eq_true, if_false]
  have hall : (required.all (fun p => held.contains p) = true)
      ↔ ∀ p ∈ required, p ∈ held := by
    simp [List.all_eq_true, List.elem_iff]
  refine ⟨?_, ?_, ?_⟩
  · rw [hred]
    cases hc : required.all (fun p => held.contains p) with
    | true =>
      exact iff_of_true (by simp) (hall.mp hc)
    | false =>
      simp only [Bool.false_eq_true, if_false]
      refine iff_of_false (by simp) ?_
      intro hforall
      rw [hall.mpr hforall] at hc
      cases hc
  · intro hreq
    rw [hred, hreq]
    simp
  · intro p hp hnp
    rw [hred]
    have hc : required.all (fun p => held.contains p) = false := by
      cases hca : required.all (fun p => held.contains p) with
      | false => rfl
      | true => exact absurd ((hall.mp hca) p hp) hnp
    rw [hc]
    simp

/-- Identity value used for concrete guard instances. -/
def aliceUser : EUser := { id := some "u1", username := "alice", roles := [] }

/-- Permission validator used for concrete guard instances. -/
def anyPerms : List String → Bool := fun _ => true

/-- Held-permission lookup used for concrete guard instances: every
identity holds exactly the view permission. -/
def viewPerms : String → Failable (List String) := fun _ => .ok ["view"]

/-- Witness for C4 at concrete inputs: an empty required set is allowed,
and a required permission that is not held produces the Permission denied
rejection. -/
theorem gate_allows_iff_all_required_held_witness :
    canActivate true (some aliceUser) "handlerA" (some []) none anyPerms
      viewPerms = .allowed ∧
    canActivate true (some aliceUser) "handlerB" (some ["admin"]) none anyPerms
      viewPerms = .forbidden "Permission denied" :=
  ⟨(gate_allows_iff_all_required_held aliceUser "u1" "handlerA" (some []) none
      anyPerms viewPerms [] ["view"] rfl rfl rfl rfl).2.1 rfl,
   (gate_allows_iff_all_required_held aliceUser "u1" "handlerB" (some ["admin"])
      none anyPerms viewPerms ["admin"] ["view"] rfl rfl rfl rfl).2.2 "admin"
      (by decide) (by decide)⟩

/-- C5: the required-permission lookup returns the method-level declaration
when one exists (and it passes the validator), otherwise the class-level
declaration; when neither exists the lookup fails and the guard turns that
failure into an internal error on every request, so the operation is never
allowed. -/
theorem extract_priority_and_fail_closed
    (handlerName : String) (methodPerms classPerms : Option (List String))
    (isPermArray : List String → Bool) :
    (∀ ps, methodPerms = some ps → isPermArray ps = true →
      extractPermissions handlerName methodPerms classPerms isPermArray = .ok ps) ∧
    (∀ ps, methodPerms = none → classPerms = some ps → isPermArray ps = true →
      extractPermissions handlerName methodPerms classPerms isPermArray = .ok ps) ∧
    (methodPerms = none → classPerms = none →
      HasFailed (extractPermissions handlerName methodPerms classPerms isPermArray)
        = true ∧
      ∀ superResult requestUser getPerms,
        canActivate superResult requestUser handlerName methodPerms classPerms
          isPermArray getPerms = .internalError) := by
  refine ⟨?_, ?_, ?_⟩
  · intro ps hm hv
    subst hm
    unfold extractPermissions
    simp [hv]
  · intro ps hm hc hv
    subst hm
    subst hc
    unfold extractPermissions
    simp [hv]
  · intro hm hc
    subst hm
    subst hc
    have hfail : extractPermissions handlerName none none isPermArray
        = .fail (handlerName ++ " does not have any permissions defined, denying access") := by
      unfold extractPermissions
      rfl
    refine ⟨by rw [hfail]; rfl, ?_⟩
    intro superResult requestUser getPerms
    unfold canActivate
    cases superResult with
    | false => rfl
    | true =>
      cases requestUser with
      | none => rfl
      | some user =>
        cases huid : user.id with
        | none => simp [huid]
        | some uid =>
          by_cases hz : uid = ""
          · simp [huid, hz]
          · simp [huid, hz, hfail]

/-- Witness for C5 at concrete inputs: the method-level declaration wins
over the class-level one, the class-level one is used when the method has
none, and with no declaration at all the guard reports an internal error. -/
theorem extract_priority_and_fail_closed_witness :
    extractPermissions "handlerC" (some ["a"]) (some ["b"]) anyPerms = .ok ["a"] ∧
    extractPermissions "handlerC" none (some ["b"]) anyPerms = .ok ["b"] ∧
    canActivate true (some aliceUser) "handlerC" none none anyPerms viewPerms
      = .internalError :=
  ⟨(extract_priority_and_fail_closed "handlerC" (some ["a"]) (some ["b"])
      anyPerms).1 ["a"] rfl rfl,
   (extract_priority_and_fail_closed "handlerC" none (some ["b"]) anyPerms).2.1
      ["b"] rfl rfl rfl,
   ((extract_priority_and_fail_closed "handlerC" none none anyPerms).2.2 rfl
      rfl).2 true (some aliceUser) viewPerms⟩

/-- Membership in the soulbound-stripped request: exactly the requested
roles that are not soulbound. -/
theorem mem_filterAddedRoles {cfg : UsersConfig} {roles : List String}
    {r : String} :
    r ∈ filterAddedRoles cfg roles ↔ r ∈ roles ∧ r ∉ cfg.SoulBoundRolesList := by
  unfold filterAddedRoles
  simp [List.mem_filter, List.elem_iff]

/-- C8: every successful non-bypass create yields a role set without
duplicates whose members are exactly the default roles together with the
requested roles that are not soulbound, that is, the deduplicated union of
the default role set and the soulbound-stripped request. -/
theorem create_nonbypass_role_set
    (cfg : UsersConfig) (hash : String → String) (s : Store)
    (newId username password : String) (roles : List String)
    (result : EUserBackend) (s2 : Store)
    (hcreate : create cfg hash s newId username password roles false
      = (.ok result, s2)) :
    result.roles.Nodup ∧
    ∀ r, r ∈ result.roles ↔
      r ∈ cfg.DefaultRolesList ∨ (r ∈ roles ∧ r ∉ cfg.SoulBoundRolesList) := by
  unfold create at hcreate
  cases hex : usersExists s username with
  | true => rw [hex] at hcreate; cases hcreate
  | false =>
    rw [hex] at hcreate
    simp only [Bool.false_eq_true, if_false] at hcreate
    cases hsb : s.saveBroken with
    | true => rw [hsb] at hcreate; simp at hcreate
    | false =>
      rw [hsb] at hcreate
      simp only [Bool.false_eq_true, if_false, Prod.mk.injEq] at hcreate
      have hres : result =
          { id := some newId, username := username,
            hashedPassword := some (hash password),
            roles := makeUnique (cfg.DefaultRolesList ++ filterAddedRoles cfg roles) } := by
        have := hcreate.1
        cases this
        rfl
      subst hres
      refine ⟨nodup_makeUnique _, ?_⟩
      intro r
      rw [mem_makeUnique, List.mem_append, mem_filterAddedRoles]

/-- Configuration for the creation scenario: viewer is a default role and
nothing is soulbound. -/
def cfgViewer : UsersConfig :=
  { DefaultRolesList := ["viewer"], SoulBoundRolesList := [], ImmutableUsersList := [],
    LockedLoginUsersList := [], UndeletableUsersList := [] }

/-- The record a non-bypass create of alice with the editor role yields
under cfgViewer. -/
def aliceRow : EUserBackend :=
  { id := some "1", username := "alice", hashedPassword := some "pw",
    roles := ["viewer", "editor"] }

/-- Witness for C8 at the concrete alice scenario: creating alice with the
editor role when viewer is the default role yields exactly the set holding
viewer and editor, without duplicates. -/
theorem create_nonbypass_role_set_witness :
    aliceRow.roles.Nodup ∧
    ("viewer" ∈ aliceRow.roles ↔
      "viewer" ∈ cfgViewer.DefaultRolesList ∨
      ("viewer" ∈ ["editor"] ∧ "viewer" ∉ cfgViewer.SoulBoundRolesList)) ∧
    ("editor" ∈ aliceRow.roles ↔
      "editor" ∈ cfgViewer.DefaultRolesList ∨
      ("editor" ∈ ["editor"] ∧ "editor" ∉ cfgViewer.SoulBoundRolesList)) := by
  have h := create_nonbypass_role_set cfgViewer (fun p => p) emptyStore "1"
    "alice" "pw" ["editor"] aliceRow
    { users := [aliceRow], findBroken := false, saveBroken := false } (by decide)
  exact ⟨h.1, h.2 "viewer", h.2 "editor"⟩

/-- C3 (amended): for an account whose username is not on the immutable
list, every successful setRoles yields a duplicate-free role set in which
soulbound membership is exactly preserved, and whose members are exactly
the union of the currently-held soulbound roles and the requested
non-soulbound roles. -/
theorem setRoles_union_characterization
    (cfg : UsersConfig) (s : Store) (uuid : String) (roles : List String)
    (user result : EUserBackend)
    (hfind : findOne s uuid = .ok user)
    (himm : cfg.ImmutableUsersList.contains user.username = false)
    (hok : (setRoles cfg s uuid roles).1 = .ok result) :
    result.roles.Nodup ∧
    (∀ r, r ∈ cfg.SoulBoundRolesList → (r ∈ result.roles ↔ r ∈ user.roles)) ∧
    (∀ r, r ∈ result.roles ↔
      (r ∈ user.roles ∧ r ∈ cfg.SoulBoundRolesList) ∨
      (r ∈ roles ∧ r ∉ cfg.SoulBoundRolesList)) := by
  have himm' : user.username ∉ cfg.ImmutableUsersList := by
    simpa [List.elem_iff] using himm
  unfold setRoles at hok
  rw [hfind] at hok
  simp only [himm', if_false, List.elem_iff, decide_eq_true_eq] at hok
  cases hsb : s.saveBroken with
  | true => rw [hsb] at hok; simp at hok
  | false =>
    rw [hsb] at hok
    simp only [Bool.false_eq_true, if_false] at hok
    injection hok with hres
    subst hres
    have hmem : ∀ r,
        r ∈ makeUnique
          (user.roles.filter (fun role => cfg.SoulBoundRolesList.contains role)
            ++ filterAddedRoles cfg roles) ↔
        (r ∈ user.roles ∧ r ∈ cfg.SoulBoundRolesList) ∨
        (r ∈ roles ∧ r ∉ cfg.SoulBoundRolesList) := by
      intro r
      rw [mem_makeUnique, List.mem_append, mem_filterAddedRoles,
        List.mem_filter]
      simp [List.elem_iff]
    refine ⟨nodup_makeUnique _, ?_, hmem⟩
    intro r hSB
    rw [hmem r]
    constructor
    · intro h
      cases h with
      | inl h => exact h.1
      | inr h => exact absurd hSB h.2
    · intro h
      exact Or.inl ⟨h, hSB⟩

/-- Counterexample to C3 as stated: under cfgImm the admin account is
immutable and holds the non-soulbound role x; setRoles with an empty
request succeeds and returns the unchanged record, whose role set still
holds x, while the deduplicated union of the kept soulbound roles and the
requested non-soulbound roles is empty. -/
theorem setRoles_dedup_union_counterexample :
    (setRoles cfgImm storeImm "1" []).1 = .ok adminRow ∧
    "x" ∈ adminRow.roles ∧
    "x" ∉ makeUnique
      (adminRow.roles.filter (fun role => cfgImm.SoulBoundRolesList.contains role)
        ++ filterAddedRoles cfgImm []) := by
  decide

/-- Configuration whose only soulbound role is sb. -/
def cfgSB : UsersConfig :=
  { DefaultRolesList := [], SoulBoundRolesList := ["sb"], ImmutableUsersList := [],
    LockedLoginUsersList := [], UndeletableUsersList := [] }

/-- A stored row named carol holding the soulbound role sb and the
ordinary role old. -/
def carolRow : EUserBackend :=
  { id := some "9", username := "carol", hashedPassword := none,
    roles := ["sb", "old"] }

/-- Store holding only the carol row, with a healthy storage layer. -/
def storeSB : Store :=
  { users := [carolRow], findBroken := false, saveBroken := false }

/-- The record setRoles returns for carol when the request is the new and
sb roles: sb is kept because it is already held, new is added, old is
stripped, and the requested sb is not treated as a fresh grant. -/
def carolUpdated : EUserBackend :=
  { id := some "9", username := "carol", hashedPassword := none,
    roles := ["sb", "new"] }

/-- Witness for the amended C3 at a concrete input: updating carol keeps
the held soulbound role sb, adds the non-soulbound role new, and drops
old, with no duplicates. -/
theorem setRoles_union_characterization_witness :
    carolUpdated.roles.Nodup ∧
    ("sb" ∈ carolUpdated.roles ↔ "sb" ∈ carolRow.roles) ∧
    ("old" ∈ carolUpdated.roles ↔
      ("old" ∈ carolRow.roles ∧ "old" ∈ cfgSB.SoulBoundRolesList) ∨
      ("old" ∈ ["new", "sb"] ∧ "old" ∉ cfgSB.SoulBoundRolesList)) := by
  have h := setRoles_union_characterization cfgSB storeSB "9" ["new", "sb"]
    carolRow carolUpdated (by decide) (by decide) (by decide)
  exact ⟨h.1, h.2.1 "sb" (by decide), h.2.2 "old"⟩

/-- C1 (amended): for every username on the locked-login list authenticate
fails for every password, the outcome is the same for every hash
comparison function (the comparison is never consulted), and when the
account exists the failure is the one with the backend message Wrong
username; the three failure messages of authenticate are however distinct,
not identical. -/
theorem authenticate_locked_always_fails
    (cfg : UsersConfig) (s : Store) (c1 c2 : String → String → Bool)
    (username password : String)
    (hlock : cfg.LockedLoginUsersList.contains username = true) :
    HasFailed (authenticate cfg s c1 username password) = true ∧
    authenticate cfg s c1 username password
      = authenticate cfg s c2 username password ∧
    (∀ u, findByUsername s username true = .ok u →
      authenticate cfg s c1 username password = .fail "Wrong username") := by
  cases hf : findByUsername s username true with
  | fail r =>
    have hc : ∀ c : String → String → Bool,
        authenticate cfg s c username password = .fail r := by
      intro c
      unfold authenticate
      rw [hf]
    refine ⟨by rw [hc c1]; rfl, by rw [hc c1, hc c2], ?_⟩
    intro u hu
    exact Failable.noConfusion hu
  | ok u =>
    have hun : u.username = username := findByUsername_ok_username hf
    have hcond : cfg.LockedLoginUsersList.contains u.username = true := by
      rw [hun]; exact hlock
    have hc : ∀ c : String → String → Bool,
        authenticate cfg s c username password = .fail "Wrong username" := by
      intro c
      unfold authenticate
      rw [hf]
      simp only [hcond, if_true]
    exact ⟨by rw [hc c1]; rfl, by rw [hc c1, hc c2], fun _ _ => hc c1⟩

/-- Configuration whose locked-login list holds the name admin. -/
def cfgLocked : UsersConfig :=
  { DefaultRolesList := [], SoulBoundRolesList := [], ImmutableUsersList := [],
    LockedLoginUsersList := ["admin"], UndeletableUsersList := [] }

/-- A stored admin row with a password hash. -/
def adminCred : EUserBackend :=
  { id := some "1", username := "admin", hashedPassword := some "h", roles := [] }

/-- A stored alice row with a password hash. -/
def aliceCred : EUserBackend :=
  { id := some "2", username := "alice", hashedPassword := some "h2", roles := [] }

/-- Store holding admin (locked) and alice (not locked). -/
def storeLocked : Store :=
  { users := [adminCred, aliceCred], findBroken := false, saveBroken := false }

/-- Counterexample to C1 as stated: the failure for the locked admin
carries the message Wrong username, the failure for the nonexistent bob
carries the message User not found, and the failure for alice with a
failing hash comparison carries the message Wrong password; the three
messages are pairwise distinct, so the locked-login failure message is not
identical to the other two. -/
theorem authenticate_locked_message_differs :
    authenticate cfgLocked storeLocked (fun _ _ => true) "admin" "pw"
      = .fail "Wrong username" ∧
    authenticate cfgLocked storeLocked (fun _ _ => true) "bob" "pw"
      = .fail "User not found" ∧
    authenticate cfgLocked storeLocked (fun _ _ => false) "alice" "pw"
      = .fail "Wrong password" ∧
    ("Wrong username" ≠ "User not found" ∧ "Wrong username" ≠ "Wrong password") := by
  decide

/-- Witness for the amended C1 at a concrete input: authenticating the
locked admin with any password fails, identically for a comparison that
always succeeds and one that always fails, with the Wrong username
message. -/
theorem authenticate_locked_always_fails_witness :
    HasFailed (authenticate cfgLocked storeLocked (fun _ _ => true) "admin"
      "correct") = true ∧
    authenticate cfgLocked storeLocked (fun _ _ => true) "admin" "correct"
      = authenticate cfgLocked storeLocked (fun _ _ => false) "admin" "correct" ∧
    authenticate cfgLocked storeLocked (fun _ _ => true) "admin" "correct"
      = .fail "Wrong username" := by
  have h := authenticate_locked_always_fails cfgLocked storeLocked
    (fun _ _ => true) (fun _ _ => false) "admin" "correct" (by decide)
  exact ⟨h.1, h.2.1, h.2.2 adminCred (by decide)⟩

/-- The row create builds and hands to the repository save: the fresh id,
the requested username, the hashed password, and the computed role list
(verbatim-deduplicated under bypass, else default roles unioned with the
soulbound-stripped request). -/
def createdRow (cfg : UsersConfig) (hash : String → String)
    (newId username password : String) (roles : List String)
    (byPassRoleCheck : Bool) : EUserBackend :=
  { id := some newId, username := username,
    hashedPassword := some (hash password),
    roles :=
      if byPassRoleCheck then makeUnique roles
      else makeUnique (cfg.DefaultRolesList ++ filterAddedRoles cfg roles) }

/-- C10: when the read side of storage fails, the username lookup fails
with the caught storage error yet usersExists returns the boolean false
rather than an error; create therefore treats the username as not taken
and proceeds to attempt the insert (appending the new row when the write
side works), instead of surfacing the lookup failure. -/
theorem exists_false_on_broken_lookup_create_proceeds
    (cfg : UsersConfig) (hash : String → String) (s : Store)
    (newId username password : String) (roles : List String) (byPass : Bool)
    (hbroken : s.findBroken = true) :
    usersExists s username = false ∧
    findByUsername s username false = .fail storageErr ∧
    (s.saveBroken = false →
      create cfg hash s newId username password roles byPass =
        (.ok (createdRow cfg hash newId username password roles byPass),
         { s with users :=
            s.users ++ [createdRow cfg hash newId username password roles byPass] })) := by
  have hfb : findByUsername s username false = .fail storageErr := by
    unfold findByUsername
    rw [hbroken]
    rfl
  have hex : usersExists s username = false := by
    unfold usersExists HasSuccess
    rw [hfb]
    rfl
  refine ⟨hex, hfb, ?_⟩
  intro hsb
  unfold create createdRow
  rw [hex, hsb]
  rfl

/-- Store that already holds bob but whose read side throws; the write
side still works. -/
def storeBroken : Store :=
  { users := [bobRow], findBroken := true, saveBroken := false }

/-- Witness for C10 at a concrete input: with the read side broken, bob is
reported as not existing even though a bob row is stored, and creating bob
again proceeds and appends a second bob row. -/
theorem exists_false_on_broken_lookup_create_proceeds_witness :
    usersExists storeBroken "bob" = false ∧
    findByUsername storeBroken "bob" false = .fail storageErr ∧
    create cfgPlain (fun p => p) storeBroken "2" "bob" "pw" [] false =
      (.ok (createdRow cfgPlain (fun p => p) "2" "bob" "pw" [] false),
       { storeBroken with users :=
          storeBroken.users ++ [createdRow cfgPlain (fun p => p) "2" "bob" "pw" [] false] }) := by
  have h := exists_false_on_broken_lookup_create_proceeds cfgPlain (fun p => p)
    storeBroken "2" "bob" "pw" [] false (by decide)
  exact ⟨h.1, h.2.1, h.2.2 (by decide)⟩

/-- One non-bypass Create or SetRoles step preserves, for every stored
account, holding every default role and duplicate-freedom, provided every
default role is soulbound. -/
theorem runOp_preserves_roles_invariant
    (cfg : UsersConfig) (hash : String → String) (op : UserOp) (s : Store)
    (hDS : ∀ r ∈ cfg.DefaultRolesList, r ∈ cfg.SoulBoundRolesList)
    (hnb : nonBypass op = true)
    (hs : ∀ u ∈ s.users,
      (∀ r ∈ cfg.DefaultRolesList, r ∈ u.roles) ∧ u.roles.Nodup) :
    ∀ u ∈ (runOp cfg hash s op).users,
      (∀ r ∈ cfg.DefaultRolesList, r ∈ u.roles) ∧ u.roles.Nodup := by
  cases op with
  | createOp newId username password roles byPass =>
    have hbp : byPass = false := by
      simpa [nonBypass] using hnb
    subst hbp
    show ∀ u ∈ (create cfg hash s newId username password roles false).2.users,
      (∀ r ∈ cfg.DefaultRolesList, r ∈ u.roles) ∧ u.roles.Nodup
    unfold create
    by_cases hex : usersExists s username = true
    · rw [if_pos hex]
      exact hs
    · rw [if_neg hex]
      by_cases hsb : s.saveBroken = true
      · simpa [hsb] using hs
      · have hsb' : s.saveBroken = false := by
          cases hc : s.saveBroken with
          | false => rfl
          | true => exact absurd hc hsb
        simp only [hsb', Bool.false_eq_true, if_false]
        intro u hu
        rcases List.mem_append.mp hu with h | h
        · exact hs u h
        · rw [List.mem_singleton] at h
          subst h
          refine ⟨?_, nodup_makeUnique _⟩
          intro r hr
          rw [mem_makeUnique, List.mem_append]
          exact Or.inl hr
  | setRolesOp uuid roles =>
    show ∀ u ∈ (setRoles cfg s uuid roles).2.users,
      (∀ r ∈ cfg.DefaultRolesList, r ∈ u.roles) ∧ u.roles.Nodup
    unfold setRoles
    cases hf : findOne s uuid with
    | fail r =>
      exact hs
    | ok userToModify =>
      by_cases himm : cfg.ImmutableUsersList.contains userToModify.username = true
      · simp only [himm, if_true]
        exact hs
      · have himm' : cfg.ImmutableUsersList.contains userToModify.username = false := by
          cases hc : cfg.ImmutableUsersList.contains userToModify.username with
          | false => rfl
          | true => exact absurd hc himm
        have himmem : userToModify.username ∉ cfg.ImmutableUsersList := by
          simpa [List.elem_iff] using himm'
        by_cases hsb : s.saveBroken = true
        · simpa [himmem, hsb] using hs
        · have hsb' : s.saveBroken = false := by
            cases hc : s.saveBroken with
            | false => rfl
            | true => exact absurd hc hsb
          simp only [himm', hsb', Bool.false_eq_true, if_false]
          intro u hu
          rcases List.mem_map.mp hu with ⟨v, hv, hveq⟩
          by_cases hid : v.id = some uuid
          · have hbeq : (v.id == some uuid) = true := by
              rw [hid]; exact beq_self_eq_true _
            rw [hbeq] at hveq
            simp only [if_true] at hveq
            subst hveq
            refine ⟨?_, nodup_makeUnique _⟩
            intro r hr
            rw [mem_makeUnique, List.mem_append]
            left
            rw [List.mem_filter]
            obtain ⟨hb, u0, hu0, hstrip⟩ := findOne_ok_mem hf
            have hroles : userToModify.roles = u0.roles := by
              rw [← hstrip]
              rfl
            refine ⟨?_, ?_⟩
            · rw [hroles]
              exact (hs u0 hu0).1 r hr
            · have hSB : r ∈ cfg.SoulBoundRolesList := hDS r hr
              simpa [List.elem_iff] using hSB
          · have hbeq : (v.id == some uuid) = false := by
              cases hvb : (v.id == some uuid) with
              | false => rfl
              | true => exact absurd (by simpa using hvb) hid
            rw [hbeq] at hveq
            simp only [Bool.false_eq_true, if_false] at hveq
            subst hveq
            exact hs v hv

/-- Any sequence of non-bypass operations preserves the role invariant for
every stored account. -/
theorem runOps_preserves_roles_invariant
    (cfg : UsersConfig) (hash : String → String)
    (hDS : ∀ r ∈ cfg.DefaultRolesList, r ∈ cfg.SoulBoundRolesList) :
    ∀ ops : List UserOp, (∀ op ∈ ops, nonBypass op = true) →
    ∀ s : Store,
      (∀ u ∈ s.users, (∀ r ∈ cfg.DefaultRolesList, r ∈ u.roles) ∧ u.roles.Nodup) →
      ∀ u ∈ (runOps cfg hash s ops).users,
        (∀ r ∈ cfg.DefaultRolesList, r ∈ u.roles) ∧ u.roles.Nodup := by
  intro ops
  induction ops with
  | nil =>
    intro _ s hs
    simpa [runOps] using hs
  | cons op rest ih =>
    intro hnb s hs
    have h1 := runOp_preserves_roles_invariant cfg hash op s hDS
      (hnb op (by simp)) hs
    have h2 := ih (fun o ho => hnb o (by simp [ho])) (runOp cfg hash s op) h1
    simpa [runOps] using h2

/-- C2: starting from an empty store, after any sequence of Create and
SetRoles operations in which no creation bypasses the role check, every
stored account holds every default role and its role set has no
duplicates; this needs every default role to be soulbound, which the
configured lists satisfy. -/
theorem accounts_keep_default_roles_nodup
    (cfg : UsersConfig) (hash : String → String) (ops : List UserOp)
    (hDS : ∀ r ∈ cfg.DefaultRolesList, r ∈ cfg.SoulBoundRolesList)
    (hnb : ∀ op ∈ ops, nonBypass op = true) :
    ∀ u ∈ (runOps cfg hash emptyStore ops).users,
      (∀ r ∈ cfg.DefaultRolesList, r ∈ u.roles) ∧ u.roles.Nodup :=
  runOps_preserves_roles_invariant cfg hash hDS ops hnb emptyStore
    (by intro u hu; cases hu)

/-- Configuration mirroring the upstream one: the default role user is
soulbound (as is guest). -/
def cfgDS : UsersConfig :=
  { DefaultRolesList := ["user"], SoulBoundRolesList := ["user", "guest"],
    ImmutableUsersList := [], LockedLoginUsersList := [], UndeletableUsersList := [] }

/-- A concrete non-bypass operation sequence: create alice with the editor
role, then strip all her roles via setRoles. -/
def opsW : List UserOp :=
  [.createOp "1" "alice" "pw" ["editor"] false, .setRolesOp "1" []]

/-- The alice record after running opsW: the soulbound default role user
survives the role-stripping update. -/
def aliceAfterOps : EUserBackend :=
  { id := some "1", username := "alice", hashedPassword := some "pw",
    roles := ["user"] }

/-- Witness for C2 at a concrete input: after creating alice and then
requesting an empty role list, the stored alice record still holds the
default role user and has no duplicate roles. -/
theorem accounts_keep_default_roles_nodup_witness :
    "user" ∈ aliceAfterOps.roles ∧ aliceAfterOps.roles.Nodup := by
  have h := accounts_keep_default_roles_nodup cfgDS (fun p => p) opsW
    (by decide) (by decide)
  have hm : aliceAfterOps ∈ (runOps cfgDS (fun p => p) emptyStore opsW).users := by
    decide
  exact ⟨(h aliceAfterOps hm).1 "user" (by decide), (h aliceAfterOps hm).2⟩
